import Mathlib

/-!
Verification of the `dbless` key-value store (storage abstraction layer).

The embedding models the two `StoreInterface` backends
(`src/store/memory.rs`, `src/store/redb.rs`), the table-handle layer
(`src/table.rs`) and the `Database` facade (`src/lib.rs`).

State of either backend is a finite map from table name to a finite map
from key to value bytes, embedded as association lists.  The in-memory
backend is literally a `HashMap<String, HashMap<String, Vec<u8>>>`; the
durable backend's engine (redb) is, per the specification, an opaque
already-correct dependency exposing byte-keyed named tables under
transactions, so it is modelled by the same finite-map state, with the
transaction plumbing (begin/commit always succeeding) elided.
-/

/-- Value bytes of one stored entry (`Vec<u8>` in the source). -/
abbrev Bytes := List Nat

/-- One table: key to value-bytes (`HashMap<String, Vec<u8>>`). -/
abbrev TableData := List (String × Bytes)

/-- All tables: table name to table (`HashMap<String, Table>`). -/
abbrev TablesData := List (String × TableData)

/-- Association-list lookup (models `HashMap::get` / redb point lookup). -/
def lookupA {α : Type} : List (String × α) → String → Option α
  | [], _ => none
  | (k', v) :: rest, k => if k' = k then some v else lookupA rest k

/-- Association-list insert-or-replace (models `HashMap::insert` /
redb `Table::insert`): replaces the entry of `k` when present, appends
otherwise. -/
def insertA {α : Type} : List (String × α) → String → α → List (String × α)
  | [], k, v => [(k, v)]
  | (k', v') :: rest, k, v =>
      if k' = k then (k, v) :: rest else (k', v') :: insertA rest k v

/-- Association-list removal of the entry of `k` (models `HashMap::remove` /
redb `Table::remove` / `delete_table`). -/
def removeA {α : Type} : List (String × α) → String → List (String × α)
  | [], _ => []
  | (k', v') :: rest, k => if k' = k then rest else (k', v') :: removeA rest k

theorem lookupA_insertA_self {α : Type} (l : List (String × α)) (k : String) (v : α) :
    lookupA (insertA l k v) k = some v := by
  induction l with
  | nil => simp [insertA, lookupA]
  | cons hd tl ih =>
      obtain ⟨k', v'⟩ := hd
      by_cases h : k' = k <;> simp [insertA, lookupA, h, ih]

theorem lookupA_eq_none_iff {α : Type} (l : List (String × α)) (k : String) :
    lookupA l k = none ↔ k ∉ l.map Prod.fst := by
  induction l with
  | nil => simp [lookupA]
  | cons hd tl ih =>
      obtain ⟨k', v'⟩ := hd
      by_cases h : k' = k
      · subst h
        simp [lookupA]
      · simp only [lookupA, if_neg h, List.map_cons, List.mem_cons, ih]
        constructor
        · intro hm
          exact fun hor => hor.elim (fun he => h he.symm) hm
        · intro hm hmem
          exact hm (Or.inr hmem)

theorem lookupA_isSome_iff {α : Type} (l : List (String × α)) (k : String) :
    (lookupA l k).isSome = true ↔ k ∈ l.map Prod.fst := by
  rcases hl : lookupA l k with _ | v
  · have hnot := (lookupA_eq_none_iff l k).mp hl
    simp [hnot]
  · constructor
    · intro _
      by_contra hm
      rw [← lookupA_eq_none_iff] at hm
      rw [hm] at hl
      exact Option.noConfusion hl
    · intro _
      rfl

theorem removeA_of_not_mem {α : Type} (l : List (String × α)) (k : String)
    (h : k ∉ l.map Prod.fst) : removeA l k = l := by
  induction l with
  | nil => rfl
  | cons hd tl ih =>
      obtain ⟨k', v'⟩ := hd
      simp only [List.map_cons, List.mem_cons] at h
      push_neg at h
      have hk : ¬ k' = k := fun he => h.1 he.symm
      simp [removeA, hk, ih h.2]

theorem insertA_self_of_lookupA {α : Type} (l : List (String × α)) (k : String) (v : α)
    (h : lookupA l k = some v) : insertA l k v = l := by
  induction l with
  | nil => simp [lookupA] at h
  | cons hd tl ih =>
      obtain ⟨k', v'⟩ := hd
      by_cases hk : k' = k
      · simp [lookupA, hk] at h
        simp [insertA, hk, h]
      · simp [lookupA, hk] at h
        simp [insertA, hk, ih h]

theorem lookupA_removeA_self_of_nodup {α : Type} (l : List (String × α)) (k : String)
    (h : (l.map Prod.fst).Nodup) : lookupA (removeA l k) k = none := by
  induction l with
  | nil => rfl
  | cons hd tl ih =>
      obtain ⟨k', v'⟩ := hd
      simp only [List.map_cons, List.nodup_cons] at h
      by_cases hk : k' = k
      · subst hk
        simp only [removeA, if_pos rfl]
        exact (lookupA_eq_none_iff tl k').mpr h.1
      · simp [removeA, hk, lookupA, ih h.2]

theorem not_mem_map_fst_removeA_of_nodup {α : Type} (l : List (String × α)) (k : String)
    (h : (l.map Prod.fst).Nodup) : k ∉ (removeA l k).map Prod.fst := by
  induction l with
  | nil => simp [removeA]
  | cons hd tl ih =>
      obtain ⟨k', v'⟩ := hd
      simp only [List.map_cons, List.nodup_cons] at h
      by_cases hk : k' = k
      · subst hk
        simpa [removeA] using h.1
      · simp only [removeA, if_neg hk, List.map_cons, List.mem_cons]
        push_neg
        exact ⟨fun hkk => hk hkk.symm, ih h.2⟩

theorem mem_map_fst_insertA {α : Type} (l : List (String × α)) (k : String) (v : α) :
    k ∈ (insertA l k v).map Prod.fst := by
  induction l with
  | nil => simp [insertA]
  | cons hd tl ih =>
      obtain ⟨k', v'⟩ := hd
      by_cases h : k' = k <;> simp [insertA, h, ih]

theorem countP_insertA_of_not_mem {α : Type} (l : List (String × α)) (k : String) (v : α)
    (h : k ∉ l.map Prod.fst) :
    (insertA l k v).countP (fun kv => kv.1 = k) = 1 := by
  induction l with
  | nil => simp [insertA, List.countP_cons]
  | cons hd tl ih =>
      obtain ⟨k', v'⟩ := hd
      simp only [List.map_cons, List.mem_cons] at h
      push_neg at h
      have hk : ¬ k' = k := fun hkk => h.1 hkk.symm
      simp only [insertA, if_neg hk, List.countP_cons]
      simp [hk, ih h.2]

/-! ## Codec

`src/serde.rs` delegates to `rmp_serde` (MessagePack), an external
dependency.  Per spec §4.1 it is a self-describing binary encoding:
serialization is total for supported types, and deserialization at the
wrong type fails with a decode error rather than coercing.  It is
modelled here over a representative universe of supported primitive
types (integers, strings, booleans) by a tagged encoding. -/

/-- A requested value type (the `T` type parameter of `get::<T>` etc.). -/
inductive Ty where
  | tInt
  | tStr
  | tBool
deriving DecidableEq

/-- A typed value of the modelled universe of supported types. -/
inductive Value where
  | vInt (n : Int)
  | vStr (s : String)
  | vBool (b : Bool)
deriving DecidableEq

/-- The type of a value. -/
def tyOf : Value → Ty
  | .vInt _ => .tInt
  | .vStr _ => .tStr
  | .vBool _ => .tBool

/-- `serialize` from `src/serde.rs`: total on the modelled universe,
producing a self-describing (type-tagged) byte encoding. -/
def serialize : Value → Bytes
  | .vInt n => [0, if n < 0 then 1 else 0, n.natAbs]
  | .vStr s => 1 :: s.data.map Char.toNat
  | .vBool b => [2, if b then 1 else 0]

/-- `deserialize` from `src/serde.rs`: succeeds exactly when the byte
layout matches the requested type's shape, otherwise a decode error. -/
def deserialize : Ty → Bytes → Except String Value
  | .tInt, [0, sign, m] => .ok (.vInt (if sign = 1 then -(m : Int) else (m : Int)))
  | .tStr, 1 :: cs => .ok (.vStr ⟨cs.map Char.ofNat⟩)
  | .tBool, [2, b] => .ok (.vBool (b = 1))
  | _, _ => .error "decode error: stored bytes do not match the requested type"

theorem deserialize_serialize (v : Value) :
    deserialize (tyOf v) (serialize v) = .ok v := by
  cases v with
  | vInt n =>
      by_cases h : n < 0
      · have hs : serialize (Value.vInt n) = [0, 1, n.natAbs] := by
          simp [serialize, h]
        have hd : deserialize Ty.tInt [0, 1, n.natAbs]
            = .ok (.vInt (-(n.natAbs : Int))) := rfl
        rw [show tyOf (Value.vInt n) = Ty.tInt from rfl, hs, hd]
        simp only [Except.ok.injEq, Value.vInt.injEq]
        omega
      · have hs : serialize (Value.vInt n) = [0, 0, n.natAbs] := by
          simp [serialize, h]
        have hd : deserialize Ty.tInt [0, 0, n.natAbs]
            = .ok (.vInt (n.natAbs : Int)) := rfl
        rw [show tyOf (Value.vInt n) = Ty.tInt from rfl, hs, hd]
        simp only [Except.ok.injEq, Value.vInt.injEq]
        omega
  | vStr s =>
      have hmap : ∀ l : List Char, l.map (fun c => Char.ofNat c.toNat) = l := by
        intro l
        induction l with
        | nil => rfl
        | cons c cs ih => simp [Char.ofNat_toNat, ih]
      simp [serialize, deserialize, tyOf, List.map_map, Function.comp_def, hmap]
  | vBool b => cases b <;> rfl

/-! ## Volatile (in-memory) backend — `src/store/memory.rs`

`Store(HashMap<String, HashMap<String, Vec<u8>>>)`.  The `HashMap`s are
embedded as association lists; `HashMap` iteration order is arbitrary,
and no claim below depends on order. -/

/-- The in-memory `Store` of `src/store/memory.rs`. -/
structure Memory.Store where
  tables : TablesData
deriving DecidableEq

namespace Memory

/-- `Store::table`: shared lookup of a table, `None` when absent. -/
def Store.table (s : Store) (table : String) : Option TableData :=
  lookupA s.tables table

/-- `Store::table_mut`: `self.0.entry(table).or_default()` — obtains the
table, creating an empty one when absent, and stores back the result of
mutating it with `f` (the in-place mutation the caller performs through
the returned `&mut Table`). -/
def Store.table_mut (s : Store) (table : String) (f : TableData → TableData) : Store :=
  ⟨insertA s.tables table (f (match lookupA s.tables table with
      | some tbl => tbl
      | none => []))⟩

/-- `StoreInterface::get` for the in-memory backend: absent table or key
gives `Ok(None)`; otherwise `deserialize(bytes).map(Some)`. -/
def Store.get (s : Store) (table key : String) (ty : Ty) : Except String (Option Value) :=
  match lookupA s.tables table with
  | none => .ok none
  | some tbl =>
      match lookupA tbl key with
      | none => .ok none
      | some bytes => (deserialize ty bytes).map some

/-- `StoreInterface::insert`: `table_mut` then `table.insert(key, serialize(value))`. -/
def Store.insert (s : Store) (table key : String) (v : Value) : Store :=
  s.table_mut table (fun tbl => insertA tbl key (serialize v))

/-- `StoreInterface::remove`: `table_mut` then `table.remove(key)`. -/
def Store.remove (s : Store) (table key : String) : Store :=
  s.table_mut table (fun tbl => removeA tbl key)

/-- `StoreInterface::clear`: `table_mut` then `table.clear()` — the table
entry itself stays in the outer map, emptied. -/
def Store.clear (s : Store) (table : String) : Store :=
  s.table_mut table (fun _ => [])

/-- `StoreInterface::keys`: absent table gives `[]`; otherwise all keys. -/
def Store.keys (s : Store) (table : String) : List String :=
  match lookupA s.tables table with
  | none => []
  | some tbl => tbl.map Prod.fst

/-- `StoreInterface::values`: absent table gives `[]`; otherwise the
values whose bytes deserialize at `ty` (`filter_map(deserialize(..).ok())`). -/
def Store.values (s : Store) (table : String) (ty : Ty) : List Value :=
  match lookupA s.tables table with
  | none => []
  | some tbl => tbl.filterMap (fun kv => (deserialize ty kv.2).toOption)

/-- `StoreInterface::entries`: absent table gives `[]`; otherwise the
(key, value) pairs whose bytes deserialize at `ty`. -/
def Store.entries (s : Store) (table : String) (ty : Ty) : List (String × Value) :=
  match lookupA s.tables table with
  | none => []
  | some tbl =>
      tbl.filterMap (fun kv =>
        match deserialize ty kv.2 with
        | .ok v => some (kv.1, v)
        | .error _ => none)

/-- `StoreInterface::len`: absent table counts as `0`. -/
def Store.len (s : Store) (table : String) : Nat :=
  match lookupA s.tables table with
  | none => 0
  | some tbl => tbl.length

/-- `StoreInterface::contains_key`: absent table gives `false`. -/
def Store.contains_key (s : Store) (table key : String) : Bool :=
  match lookupA s.tables table with
  | none => false
  | some tbl => (lookupA tbl key).isSome

/-- `StoreInterface::is_empty`: absent table counts as empty. -/
def Store.is_empty (s : Store) (table : String) : Bool :=
  match lookupA s.tables table with
  | none => true
  | some tbl => tbl.isEmpty

/-- `StoreInterface::list_tables`: all tracked table names. -/
def Store.list_tables (s : Store) : List String :=
  s.tables.map Prod.fst

/-- `StoreInterface::len_all_tables`: sum of per-table sizes. -/
def Store.len_all_tables (s : Store) : Nat :=
  (s.tables.map (fun t => t.2.length)).sum

/-- `StoreInterface::clear_all_tables`: `self.0.clear()`. -/
def Store.clear_all_tables (_ : Store) : Store :=
  ⟨[]⟩

end Memory

/-! ## Durable (redb-backed) backend — `src/store/redb.rs`

The underlying engine is, per spec §1/§4.3, an opaque already-correct
dependency: byte-keyed named tables under transactions, where every
transaction in this layer is short-lived and committed immediately.  Its
observable state is therefore a finite map from table name to table,
embedded like the volatile backend's.  `begin_read`/`begin_write`/`commit`
always succeed in the model (their failures are environmental I/O
errors, propagated unchanged by the code).  `open_table` in a write
transaction creates the table when absent; `open_table` in a read
transaction fails with `TableDoesNotExist`, which `open_table_read_or!`
converts to the empty-result convention. -/

/-- The redb-backed `Store` of `src/store/redb.rs`. -/
structure Redb.Store where
  tables : TablesData
deriving DecidableEq

namespace Redb

/-- `StoreInterface::get`: `open_table_read_or!(tnx, table, None)`, then
point lookup and deserialization. -/
def Store.get (s : Store) (table key : String) (ty : Ty) : Except String (Option Value) :=
  match lookupA s.tables table with
  | none => .ok none
  | some tbl =>
      match lookupA tbl key with
      | none => .ok none
      | some bytes => (deserialize ty bytes).map some

/-- `StoreInterface::insert`: write transaction, `open_table` (creating
the table when absent), insert, commit. -/
def Store.insert (s : Store) (table key : String) (v : Value) : Store :=
  ⟨insertA s.tables table
    (insertA (match lookupA s.tables table with
        | some tbl => tbl
        | none => []) key (serialize v))⟩

/-- `StoreInterface::remove`: write transaction, `open_table` (creating
the table when absent), remove the key, commit. -/
def Store.remove (s : Store) (table key : String) : Store :=
  ⟨insertA s.tables table
    (removeA (match lookupA s.tables table with
        | some tbl => tbl
        | none => []) key)⟩

/-- `StoreInterface::clear`: `tnx.delete_table(table)` — removes the
table object entirely (no error when absent), commit. -/
def Store.clear (s : Store) (table : String) : Store :=
  ⟨removeA s.tables table⟩

/-- `StoreInterface::keys`: `open_table_read_or!(tnx, table, vec![])`,
then every key of the iterated table. -/
def Store.keys (s : Store) (table : String) : List String :=
  match lookupA s.tables table with
  | none => []
  | some tbl => tbl.map Prod.fst

/-- `StoreInterface::values`: values whose bytes deserialize at `ty`
(`flat_map(deserialize(..).ok())`). -/
def Store.values (s : Store) (table : String) (ty : Ty) : List Value :=
  match lookupA s.tables table with
  | none => []
  | some tbl => tbl.filterMap (fun kv => (deserialize ty kv.2).toOption)

/-- `StoreInterface::entries`: (key, value) pairs whose bytes
deserialize at `ty`. -/
def Store.entries (s : Store) (table : String) (ty : Ty) : List (String × Value) :=
  match lookupA s.tables table with
  | none => []
  | some tbl =>
      tbl.filterMap (fun kv =>
        match deserialize ty kv.2 with
        | .ok v => some (kv.1, v)
        | .error _ => none)

/-- `StoreInterface::len`: engine-reported count, `0` when the table is
absent. -/
def Store.len (s : Store) (table : String) : Nat :=
  match lookupA s.tables table with
  | none => 0
  | some tbl => tbl.length

/-- `StoreInterface::contains_key`: `table.get(key)?.is_some()`, `false`
when the table is absent. -/
def Store.contains_key (s : Store) (table key : String) : Bool :=
  match lookupA s.tables table with
  | none => false
  | some tbl => (lookupA tbl key).isSome

/-- `StoreInterface::is_empty`: `self.len(table)? == 0`. -/
def Store.is_empty (s : Store) (table : String) : Bool :=
  s.len table == 0

/-- `StoreInterface::list_tables`: every table object known to the engine. -/
def Store.list_tables (s : Store) : List String :=
  s.tables.map Prod.fst

/-- `StoreInterface::len_all_tables`: sum of the engine counts. -/
def Store.len_all_tables (s : Store) : Nat :=
  (s.tables.map (fun t => t.2.length)).sum

/-- `StoreInterface::clear_all_tables`: delete every table in one write
transaction. -/
def Store.clear_all_tables (_ : Store) : Store :=
  ⟨[]⟩

end Redb

/-! ## Backend dispatcher -/

/-- Modelled from the spec: §4.4 — the `Store` backend selector, a
closed variant over the durable and volatile backends, purely delegating
every call; its source file is not under `src/` (only the two backend
implementations and its callers are). -/
inductive Store where
  | memory (s : Memory.Store)
  | redb (s : Redb.Store)
deriving DecidableEq

/-- Dispatching `get`. -/
def Store.get (s : Store) (table key : String) (ty : Ty) : Except String (Option Value) :=
  match s with
  | .memory m => m.get table key ty
  | .redb r => r.get table key ty

/-- Dispatching `insert`. -/
def Store.insert (s : Store) (table key : String) (v : Value) : Store :=
  match s with
  | .memory m => .memory (m.insert table key v)
  | .redb r => .redb (r.insert table key v)

/-- Dispatching `remove`. -/
def Store.remove (s : Store) (table key : String) : Store :=
  match s with
  | .memory m => .memory (m.remove table key)
  | .redb r => .redb (r.remove table key)

/-- Dispatching `clear`. -/
def Store.clear (s : Store) (table : String) : Store :=
  match s with
  | .memory m => .memory (m.clear table)
  | .redb r => .redb (r.clear table)

/-- Dispatching `keys`. -/
def Store.keys (s : Store) (table : String) : List String :=
  match s with
  | .memory m => m.keys table
  | .redb r => r.keys table

/-- Dispatching `values`. -/
def Store.values (s : Store) (table : String) (ty : Ty) : List Value :=
  match s with
  | .memory m => m.values table ty
  | .redb r => r.values table ty

/-- Dispatching `entries`. -/
def Store.entries (s : Store) (table : String) (ty : Ty) : List (String × Value) :=
  match s with
  | .memory m => m.entries table ty
  | .redb r => r.entries table ty

/-- Dispatching `len`. -/
def Store.len (s : Store) (table : String) : Nat :=
  match s with
  | .memory m => m.len table
  | .redb r => r.len table

/-- Dispatching `contains_key`. -/
def Store.contains_key (s : Store) (table key : String) : Bool :=
  match s with
  | .memory m => m.contains_key table key
  | .redb r => r.contains_key table key

/-- Dispatching `is_empty`. -/
def Store.is_empty (s : Store) (table : String) : Bool :=
  match s with
  | .memory m => m.is_empty table
  | .redb r => r.is_empty table

/-- Dispatching `list_tables`. -/
def Store.list_tables (s : Store) : List String :=
  match s with
  | .memory m => m.list_tables
  | .redb r => r.list_tables

/-- Specification-level accessor (not an API operation): the raw stored
entries of a table, empty when the table is absent.  Used to state
claims about stored bytes. -/
def Store.tableData (s : Store) (table : String) : TableData :=
  match s with
  | .memory m => (lookupA m.tables table).getD []
  | .redb r => (lookupA r.tables table).getD []

/-- Well-formedness of a backend state: distinct table names and, within
each table, distinct keys.  Every state reachable through the real
`HashMap`/redb structures satisfies it; association lists with duplicate
keys encode no real store. -/
def TablesWF (ts : TablesData) : Prop :=
  (ts.map Prod.fst).Nodup ∧ ∀ p ∈ ts, (p.2.map Prod.fst).Nodup

instance : DecidablePred TablesWF := fun ts => by
  unfold TablesWF
  infer_instance

/-- Well-formedness of a dispatched store. -/
def Store.WF (s : Store) : Prop :=
  match s with
  | .memory m => TablesWF m.tables
  | .redb r => TablesWF r.tables

instance : DecidablePred Store.WF := fun s => by
  cases s <;> (unfold Store.WF; infer_instance)

/-! ## Table handles — `src/table.rs` -/

/-- A read-only handle to a table: a `Store` borrow plus the table name. -/
structure Table where
  store : Store
  name : String

/-- A read-write handle to a table. -/
structure TableMut where
  store : Store
  name : String

/-- `From<TableMut> for Table`. -/
def TableMut.toTable (t : TableMut) : Table :=
  ⟨t.store, t.name⟩

/-- `TableReadInterface::get` for `Table`. -/
def Table.get (t : Table) (key : String) (ty : Ty) : Except String (Option Value) :=
  t.store.get t.name key ty

/-- `TableReadInterface::keys` for `Table`. -/
def Table.keys (t : Table) : List String :=
  t.store.keys t.name

/-- `TableReadInterface::values` for `Table`. -/
def Table.values (t : Table) (ty : Ty) : List Value :=
  t.store.values t.name ty

/-- `TableReadInterface::entries` for `Table`. -/
def Table.entries (t : Table) (ty : Ty) : List (String × Value) :=
  t.store.entries t.name ty

/-- `TableReadInterface::len` for `Table`. -/
def Table.len (t : Table) : Nat :=
  t.store.len t.name

/-- `TableReadInterface::is_empty` for `Table`: `len == 0`. -/
def Table.is_empty (t : Table) : Bool :=
  t.store.len t.name == 0

/-- `TableReadInterface::contains_key` for `Table`. -/
def Table.contains_key (t : Table) (key : String) : Bool :=
  t.store.contains_key t.name key

/-- `TableReadInterface::get` for `TableMut` (macro-mirrored through
`Into<Table>`). -/
def TableMut.get (t : TableMut) (key : String) (ty : Ty) : Except String (Option Value) :=
  t.toTable.get key ty

/-- `TableWriteInterface::insert` for `TableMut`. -/
def TableMut.insert (t : TableMut) (key : String) (v : Value) : TableMut :=
  ⟨t.store.insert t.name key v, t.name⟩

/-- `TableWriteInterface::remove` for `TableMut`. -/
def TableMut.remove (t : TableMut) (key : String) : TableMut :=
  ⟨t.store.remove t.name key, t.name⟩

/-- `TableWriteInterface::clear` for `TableMut`. -/
def TableMut.clear (t : TableMut) : TableMut :=
  ⟨t.store.clear t.name, t.name⟩

/-- `TableWriteInterface::get_or_insert_with`: read first; on a present
value return it; on absence run the thunk, persist its result via
`insert`, return it; on a read (decode) error propagate the error
(`self.get(key)?`), leaving the handle's store as it was.  The result is
paired with the handle after the call (`&mut self` in the source). -/
def TableMut.get_or_insert_with (t : TableMut) (key : String) (ty : Ty)
    (default : Unit → Value) : Except String Value × TableMut :=
  match t.get key ty with
  | .error e => (.error e, t)
  | .ok (some v) => (.ok v, t)
  | .ok none =>
      let d := default ()
      (.ok d, t.insert key d)

/-- `TableWriteInterface::get_or_insert`: `get_or_insert_with(key, move || default)`. -/
def TableMut.get_or_insert (t : TableMut) (key : String) (ty : Ty)
    (default : Value) : Except String Value × TableMut :=
  t.get_or_insert_with key ty (fun _ => default)

/-! ## Database facade — `src/lib.rs` -/

/-- `DEFAULT_DEFAULT_TABLE`: the reserved default-table name. -/
def DEFAULT_DEFAULT_TABLE : String := "#_#_main_dbless_table_#_#"

/-- `Database`: owns a `Store` and the current default-table name. -/
structure Database where
  store : Store
  default_table : String

/-- `Database::in_memory()`: fresh volatile backend, reserved default
table name. -/
def Database.in_memory : Database :=
  ⟨.memory ⟨[]⟩, DEFAULT_DEFAULT_TABLE⟩

/-- `Database::open(path)` on a fresh path: fresh durable backend,
reserved default table name. -/
def Database.open_file : Database :=
  ⟨.redb ⟨[]⟩, DEFAULT_DEFAULT_TABLE⟩

/-- `Database::table(name)`. -/
def Database.table (db : Database) (name : String) : Table :=
  ⟨db.store, name⟩

/-- `Database::table_mut(name)`. -/
def Database.table_mut (db : Database) (name : String) : TableMut :=
  ⟨db.store, name⟩

/-- `Database::list_tables()`: the store's tables, without the current
default table. -/
def Database.list_tables (db : Database) : List String :=
  db.store.list_tables.filter (fun t => t != db.default_table)

/-- `Database::set_default_table(name)`: rebinds the facade's default
table name; moves no data. -/
def Database.set_default_table (db : Database) (name : String) : Database :=
  { db with default_table := name }

/-- `Database::default_table()`. -/
def Database.defaultTableHandle (db : Database) : Table :=
  ⟨db.store, db.default_table⟩

/-- `TableReadInterface::get` mirrored on `Database`: delegates to the
default table. -/
def Database.get (db : Database) (key : String) (ty : Ty) : Except String (Option Value) :=
  (db.table db.default_table).get key ty

/-- `TableWriteInterface::insert` mirrored on `Database`: delegates to
the default table. -/
def Database.insert (db : Database) (key : String) (v : Value) : Database :=
  { db with store := ((db.table_mut db.default_table).insert key v).store }

/-- `TableWriteInterface::set`, alias of `insert`. -/
def Database.set (db : Database) (key : String) (v : Value) : Database :=
  db.insert key v

/-! ## Bridging lemmas -/

theorem mem_of_lookupA_eq_some {α : Type} {l : List (String × α)} {k : String} {v : α}
    (h : lookupA l k = some v) : (k, v) ∈ l := by
  induction l with
  | nil => simp [lookupA] at h
  | cons hd tl ih =>
      obtain ⟨k', v'⟩ := hd
      by_cases hk : k' = k
      · subst hk
        simp [lookupA] at h
        simp [h]
      · simp [lookupA, hk] at h
        simp [ih h]

theorem Store.get_insert_self (s : Store) (T k : String) (v : Value) (ty : Ty) :
    (s.insert T k v).get T k ty = (deserialize ty (serialize v)).map some := by
  cases s with
  | memory m =>
      simp [Store.insert, Store.get, Memory.Store.insert, Memory.Store.table_mut,
        Memory.Store.get, lookupA_insertA_self]
  | redb r =>
      simp [Store.insert, Store.get, Redb.Store.insert, Redb.Store.get,
        lookupA_insertA_self]

theorem Store.get_eq_ok_none_of_contains_key_eq_false (s : Store) (T k : String) (ty : Ty)
    (h : s.contains_key T k = false) : s.get T k ty = .ok none := by
  cases s with
  | memory m =>
      simp only [Store.contains_key, Memory.Store.contains_key] at h
      simp only [Store.get, Memory.Store.get]
      split
      · rfl
      · rename_i tbl hlt
        split
        · rfl
        · rename_i b hlk
          rw [hlt] at h
          simp [hlk] at h
  | redb r =>
      simp only [Store.contains_key, Redb.Store.contains_key] at h
      simp only [Store.get, Redb.Store.get]
      split
      · rfl
      · rename_i tbl hlt
        split
        · rfl
        · rename_i b hlk
          rw [hlt] at h
          simp [hlk] at h

theorem Store.tableData_insert_self (s : Store) (T k : String) (v : Value) :
    (s.insert T k v).tableData T = insertA (s.tableData T) k (serialize v) := by
  cases s with
  | memory m =>
      simp only [Store.insert, Store.tableData, Memory.Store.insert,
        Memory.Store.table_mut, lookupA_insertA_self, Option.getD_some]
      rcases lookupA m.tables T with _ | tbl <;> rfl
  | redb r =>
      simp only [Store.insert, Store.tableData, Redb.Store.insert,
        lookupA_insertA_self, Option.getD_some]
      rcases lookupA r.tables T with _ | tbl <;> rfl

theorem Store.not_mem_tableData_of_contains_key_eq_false (s : Store) (T k : String)
    (h : s.contains_key T k = false) : k ∉ (s.tableData T).map Prod.fst := by
  cases s with
  | memory m =>
      simp only [Store.contains_key, Memory.Store.contains_key] at h
      simp only [Store.tableData]
      rcases hlt : lookupA m.tables T with _ | tbl
      · simp
      · rw [hlt] at h
        simp only [Option.getD_some]
        rw [← lookupA_eq_none_iff]
        rcases hlk : lookupA tbl k with _ | b
        · rfl
        · simp [hlk] at h
  | redb r =>
      simp only [Store.contains_key, Redb.Store.contains_key] at h
      simp only [Store.tableData]
      rcases hlt : lookupA r.tables T with _ | tbl
      · simp
      · rw [hlt] at h
        simp only [Option.getD_some]
        rw [← lookupA_eq_none_iff]
        rcases hlk : lookupA tbl k with _ | b
        · rfl
        · simp [hlk] at h

/-! ## Claims -/

/-- Claim C1: for every table name, key and value of a supported type,
`insert` followed by `get` at the value's type returns `Ok(Some v)` —
deserialize after serialize recovers the value — on both the volatile
and the durable backend (all constructors of the dispatched `Store`). -/
theorem insert_get_round_trip (s : Store) (T k : String) (v : Value) :
    (s.insert T k v).get T k (tyOf v) = .ok (some v) := by
  rw [Store.get_insert_self, deserialize_serialize]
  rfl

/-- Claim C2: reading a non-existent table behaves exactly like reading
an empty table on both backends: `get` is `Ok(None)`, `len` is `0`,
`is_empty` is `true`, `keys` is `[]`, `contains_key` is `false` — never
an error for the mere absence of the table. -/
theorem missing_table_reads_empty (s : Store) (T : String)
    (habs : T ∉ s.list_tables) (k : String) (ty : Ty) :
    s.get T k ty = .ok none ∧ s.len T = 0 ∧ s.is_empty T = true ∧
    s.keys T = [] ∧ s.contains_key T k = false := by
  cases s with
  | memory m =>
      have hnone : lookupA m.tables T = none := by
        rw [lookupA_eq_none_iff]
        simpa [Store.list_tables, Memory.Store.list_tables] using habs
      simp [Store.get, Store.len, Store.is_empty, Store.keys, Store.contains_key,
        Memory.Store.get, Memory.Store.len, Memory.Store.is_empty,
        Memory.Store.keys, Memory.Store.contains_key, hnone]
  | redb r =>
      have hnone : lookupA r.tables T = none := by
        rw [lookupA_eq_none_iff]
        simpa [Store.list_tables, Redb.Store.list_tables] using habs
      simp [Store.get, Store.len, Store.is_empty, Store.keys, Store.contains_key,
        Redb.Store.get, Redb.Store.len, Redb.Store.is_empty,
        Redb.Store.keys, Redb.Store.contains_key, hnone]

/-- Witness for C2 at a concrete store that lacks the table `"b"`. -/
theorem missing_table_reads_empty_witness :
    (Store.redb ⟨[("a", [])]⟩).get "b" "x" Ty.tInt = .ok none ∧
    (Store.redb ⟨[("a", [])]⟩).len "b" = 0 ∧
    (Store.redb ⟨[("a", [])]⟩).is_empty "b" = true ∧
    (Store.redb ⟨[("a", [])]⟩).keys "b" = [] ∧
    (Store.redb ⟨[("a", [])]⟩).contains_key "b" "x" = false :=
  missing_table_reads_empty (Store.redb ⟨[("a", [])]⟩) "b" (by decide) "x" Ty.tInt

/-- Claim C3: after `db.set("age", 30)` (an integer), `db.get::<i32>("age")`
returns `Ok(Some(30))` while `db.get::<String>("age")` returns a decode
error — an `Err` result, not a panic (the model is total) and not
`Ok(None)`. -/
theorem typed_get_after_set_scenario (db : Database) :
    (db.set "age" (.vInt 30)).get "age" Ty.tInt = .ok (some (.vInt 30)) ∧
    ∃ e, (db.set "age" (.vInt 30)).get "age" Ty.tStr = .error e := by
  have hstore : (db.set "age" (.vInt 30)).store
      = db.store.insert db.default_table "age" (.vInt 30) := rfl
  have hdt : (db.set "age" (.vInt 30)).default_table = db.default_table := rfl
  constructor
  · show (db.set "age" (.vInt 30)).store.get
        (db.set "age" (.vInt 30)).default_table "age" Ty.tInt = .ok (some (.vInt 30))
    rw [hstore, hdt]
    have := insert_get_round_trip db.store db.default_table "age" (.vInt 30)
    exact this
  · refine ⟨"decode error: stored bytes do not match the requested type", ?_⟩
    show (db.set "age" (.vInt 30)).store.get
        (db.set "age" (.vInt 30)).default_table "age" Ty.tStr = .error _
    rw [hstore, hdt, Store.get_insert_self]
    rfl

/-- Membership in the decoded entries of one table: exactly the pairs
whose stored bytes decode at the requested type. -/
theorem mem_entriesOfTable_iff (tbl : TableData) (ty : Ty) (k : String) (v : Value) :
    (k, v) ∈ tbl.filterMap (fun kv =>
      match deserialize ty kv.2 with
      | .ok w => some (kv.1, w)
      | .error _ => none) ↔ ∃ b, (k, b) ∈ tbl ∧ deserialize ty b = .ok v := by
  rw [List.mem_filterMap]
  constructor
  · rintro ⟨⟨k', b⟩, hmem, heq⟩
    rcases hdes : deserialize ty b with e | w
    · rw [hdes] at heq
      exact Option.noConfusion heq
    · rw [hdes] at heq
      have hkv : k' = k ∧ w = v := by
        have := Option.some.inj heq
        exact ⟨congrArg Prod.fst this, congrArg Prod.snd this⟩
      exact ⟨b, hkv.1 ▸ hmem, hkv.2 ▸ hdes⟩
  · rintro ⟨b, hmem, hdes⟩
    refine ⟨(k, b), hmem, ?_⟩
    rw [hdes]

/-- The decoded values of one table are the second components of its
decoded entries. -/
theorem valuesOfTable_eq_map_snd (tbl : TableData) (ty : Ty) :
    tbl.filterMap (fun kv => (deserialize ty kv.2).toOption)
      = (tbl.filterMap (fun kv =>
          match deserialize ty kv.2 with
          | .ok w => some (kv.1, w)
          | .error _ => none)).map Prod.snd := by
  induction tbl with
  | nil => rfl
  | cons hd tl ih =>
      obtain ⟨k, b⟩ := hd
      rcases hdes : deserialize ty b with e | w <;>
      · simp [List.filterMap_cons, hdes, Except.toOption]
        simpa [Except.toOption] using ih

/-- Claim C4: on both backends, `values` and `entries` at a requested
type return exactly the entries whose stored bytes decode at that type,
silently skipping undecodable entries (the accessors are total — no
error for a partially undecodable table), while `keys` and `len` count
every entry regardless of value decodability. -/
theorem bulk_accessors_filter_by_decode (s : Store) (T : String) (ty : Ty) :
    (∀ k v, (k, v) ∈ s.entries T ty ↔
        ∃ b, (k, b) ∈ s.tableData T ∧ deserialize ty b = .ok v) ∧
    s.values T ty = (s.entries T ty).map Prod.snd ∧
    (s.keys T).length = s.len T ∧
    (∀ k, k ∈ s.keys T ↔ s.contains_key T k = true) := by
  cases s with
  | memory m =>
      simp only [Store.entries, Store.values, Store.keys, Store.len,
        Store.contains_key, Store.tableData, Memory.Store.entries,
        Memory.Store.values, Memory.Store.keys, Memory.Store.len,
        Memory.Store.contains_key]
      rcases hlt : lookupA m.tables T with _ | tbl
      · simp
      · simp only [Option.getD_some]
        exact ⟨fun k v => mem_entriesOfTable_iff tbl ty k v,
          valuesOfTable_eq_map_snd tbl ty,
          tbl.length_map Prod.fst,
          fun k => (lookupA_isSome_iff tbl k).symm⟩
  | redb r =>
      simp only [Store.entries, Store.values, Store.keys, Store.len,
        Store.contains_key, Store.tableData, Redb.Store.entries,
        Redb.Store.values, Redb.Store.keys, Redb.Store.len,
        Redb.Store.contains_key]
      rcases hlt : lookupA r.tables T with _ | tbl
      · simp
      · simp only [Option.getD_some]
        exact ⟨fun k v => mem_entriesOfTable_iff tbl ty k v,
          valuesOfTable_eq_map_snd tbl ty,
          tbl.length_map Prod.fst,
          fun k => (lookupA_isSome_iff tbl k).symm⟩

/-- Claim C5: with `k` not present in `T`, `get_or_insert(T, k, d1)`
returns `Ok(d1)`; a second `get_or_insert(T, k, d2)` at the same type
also returns `Ok(d1)`; afterwards the table holds exactly one entry for
`k`, whose stored value is `d1`.  Holds on both backends. -/
theorem get_or_insert_twice_first_default_wins (s : Store) (T k : String) (ty : Ty)
    (d1 d2 : Value) (habs : s.contains_key T k = false)
    (h1 : tyOf d1 = ty) (_h2 : tyOf d2 = ty) :
    ((TableMut.mk s T).get_or_insert k ty d1).1 = .ok d1 ∧
    (((TableMut.mk s T).get_or_insert k ty d1).2.get_or_insert k ty d2).1 = .ok d1 ∧
    ((((TableMut.mk s T).get_or_insert k ty d1).2.get_or_insert k ty d2).2.store.tableData T).countP
      (fun kv => kv.1 = k) = 1 ∧
    lookupA ((((TableMut.mk s T).get_or_insert k ty d1).2.get_or_insert k ty d2).2.store.tableData T) k
      = some (serialize d1) := by
  have hget : TableMut.get ⟨s, T⟩ k ty = .ok none :=
    Store.get_eq_ok_none_of_contains_key_eq_false s T k ty habs
  have e1 : (TableMut.mk s T).get_or_insert k ty d1
      = (.ok d1, ⟨s.insert T k d1, T⟩) := by
    simp [TableMut.get_or_insert, TableMut.get_or_insert_with, hget, TableMut.insert]
  have hget2 : TableMut.get ⟨s.insert T k d1, T⟩ k ty = .ok (some d1) := by
    show (s.insert T k d1).get T k ty = .ok (some d1)
    rw [Store.get_insert_self, ← h1, deserialize_serialize]
    rfl
  have e2 : TableMut.get_or_insert ⟨s.insert T k d1, T⟩ k ty d2
      = (.ok d1, ⟨s.insert T k d1, T⟩) := by
    simp [TableMut.get_or_insert, TableMut.get_or_insert_with, hget2]
  refine ⟨by rw [e1], by rw [e1, e2], ?_, ?_⟩
  · rw [e1, e2]
    show ((s.insert T k d1).tableData T).countP (fun kv => kv.1 = k) = 1
    rw [Store.tableData_insert_self]
    exact countP_insertA_of_not_mem _ _ _
      (Store.not_mem_tableData_of_contains_key_eq_false s T k habs)
  · rw [e1, e2]
    show lookupA ((s.insert T k d1).tableData T) k = some (serialize d1)
    rw [Store.tableData_insert_self]
    exact lookupA_insertA_self _ _ _

/-- Witness for C5 at a concrete empty store and two distinct defaults. -/
theorem get_or_insert_twice_witness :
    ((TableMut.mk (Store.memory ⟨[]⟩) "t").get_or_insert "k" Ty.tInt (Value.vInt 1)).1
      = .ok (Value.vInt 1) ∧
    (((TableMut.mk (Store.memory ⟨[]⟩) "t").get_or_insert "k" Ty.tInt (Value.vInt 1)).2.get_or_insert
      "k" Ty.tInt (Value.vInt 2)).1 = .ok (Value.vInt 1) ∧
    ((((TableMut.mk (Store.memory ⟨[]⟩) "t").get_or_insert "k" Ty.tInt (Value.vInt 1)).2.get_or_insert
      "k" Ty.tInt (Value.vInt 2)).2.store.tableData "t").countP (fun kv => kv.1 = "k") = 1 ∧
    lookupA ((((TableMut.mk (Store.memory ⟨[]⟩) "t").get_or_insert "k" Ty.tInt
      (Value.vInt 1)).2.get_or_insert "k" Ty.tInt (Value.vInt 2)).2.store.tableData "t") "k"
      = some (serialize (Value.vInt 1)) :=
  get_or_insert_twice_first_default_wins (Store.memory ⟨[]⟩) "t" "k" Ty.tInt
    (Value.vInt 1) (Value.vInt 2) (by decide) rfl rfl

/-- Counterexample for C6 as stated: on the volatile backend, removing a
key from a table that does not exist is observably not a no-op — it
creates the table, changing `list_tables` (same on the durable backend). -/
theorem remove_absent_key_changes_listing_cex :
    Store.list_tables ((Store.memory ⟨[]⟩).remove "t" "k")
      ≠ Store.list_tables (Store.memory ⟨[]⟩) := by
  decide

/-- Claim C6 (amended): on both backends, `remove(T, k)` always succeeds
and a subsequent `get(T, k)` returns `Ok(None)` (for any well-formed
store); and when the table `T` exists and `k` is absent from it, the
store is left completely unchanged.  (When `T` does not exist, `remove`
creates an empty table `T` as a side effect — see C9 — so the
unconditional "no-op" reading of the claim fails.) -/
theorem remove_absent_noop_amended (s : Store) (T k : String) (ty : Ty)
    (hwf : Store.WF s) :
    (s.remove T k).get T k ty = .ok none ∧
    (T ∈ s.list_tables → s.contains_key T k = false → s.remove T k = s) := by
  constructor
  · cases s with
    | memory m =>
        have hwf' : TablesWF m.tables := hwf
        have hnone : lookupA (removeA (match lookupA m.tables T with
            | some tbl => tbl
            | none => []) k) k = none := by
          rcases hlt : lookupA m.tables T with _ | tbl
          · simp [removeA, lookupA]
          · simp only
            exact lookupA_removeA_self_of_nodup tbl k
              (hwf'.2 (T, tbl) (mem_of_lookupA_eq_some hlt))
        simp [Store.remove, Store.get, Memory.Store.remove, Memory.Store.table_mut,
          Memory.Store.get, lookupA_insertA_self, hnone]
    | redb r =>
        have hwf' : TablesWF r.tables := hwf
        have hnone : lookupA (removeA (match lookupA r.tables T with
            | some tbl => tbl
            | none => []) k) k = none := by
          rcases hlt : lookupA r.tables T with _ | tbl
          · simp [removeA, lookupA]
          · simp only
            exact lookupA_removeA_self_of_nodup tbl k
              (hwf'.2 (T, tbl) (mem_of_lookupA_eq_some hlt))
        simp [Store.remove, Store.get, Redb.Store.remove, Redb.Store.get,
          lookupA_insertA_self, hnone]
  · intro hmem hck
    cases s with
    | memory m =>
        have hsome : (lookupA m.tables T).isSome = true :=
          (lookupA_isSome_iff _ _).mpr
            (by simpa [Store.list_tables, Memory.Store.list_tables] using hmem)
        obtain ⟨tbl, hlt⟩ := Option.isSome_iff_exists.mp hsome
        have hknotin : lookupA tbl k = none := by
          simp only [Store.contains_key, Memory.Store.contains_key, hlt] at hck
          rcases hlk : lookupA tbl k with _ | b
          · rfl
          · simp [hlk] at hck
        show Store.memory (Memory.Store.remove m T k) = Store.memory m
        congr 1
        simp only [Memory.Store.remove, Memory.Store.table_mut]
        rw [hlt]
        show Memory.Store.mk (insertA m.tables T (removeA tbl k)) = m
        rw [removeA_of_not_mem tbl k ((lookupA_eq_none_iff tbl k).mp hknotin),
          insertA_self_of_lookupA m.tables T tbl hlt]
    | redb r =>
        have hsome : (lookupA r.tables T).isSome = true :=
          (lookupA_isSome_iff _ _).mpr
            (by simpa [Store.list_tables, Redb.Store.list_tables] using hmem)
        obtain ⟨tbl, hlt⟩ := Option.isSome_iff_exists.mp hsome
        have hknotin : lookupA tbl k = none := by
          simp only [Store.contains_key, Redb.Store.contains_key, hlt] at hck
          rcases hlk : lookupA tbl k with _ | b
          · rfl
          · simp [hlk] at hck
        show Store.redb (Redb.Store.remove r T k) = Store.redb r
        congr 1
        simp only [Redb.Store.remove]
        rw [hlt]
        show Redb.Store.mk (insertA r.tables T (removeA tbl k)) = r
        rw [removeA_of_not_mem tbl k ((lookupA_eq_none_iff tbl k).mp hknotin),
          insertA_self_of_lookupA r.tables T tbl hlt]

/-- Witness for the amended C6 at a concrete store where `"t"` exists
and `"b"` is absent. -/
theorem remove_absent_noop_amended_witness :
    ((Store.memory ⟨[("t", [("a", [2, 1])])]⟩).remove "t" "b").get "t" "b" Ty.tInt = .ok none ∧
    (Store.memory ⟨[("t", [("a", [2, 1])])]⟩).remove "t" "b"
      = Store.memory ⟨[("t", [("a", [2, 1])])]⟩ := by
  have h := remove_absent_noop_amended (Store.memory ⟨[("t", [("a", [2, 1])])]⟩)
    "t" "b" Ty.tInt (by decide)
  exact ⟨h.1, h.2 (by decide) (by decide)⟩

/-- Counterexample for C7 as stated: write through the default table of
a fresh in-memory database (creating the reserved table), rebind the
default table to `"users"`; `list_tables()` now includes the reserved
name, because the code filters the *current* default-table name only. -/
theorem list_tables_reserved_name_cex :
    DEFAULT_DEFAULT_TABLE ∈
      ((Database.in_memory.insert "k" (.vInt 1)).set_default_table "users").list_tables := by
  decide

/-- Claim C7 (amended): `Database::list_tables()` never includes the
database's *current* default-table name.  In particular, while the
default table is the reserved name (as on every freshly constructed
`Database`, before any `set_default_table`), the reserved name is never
listed; after rebinding, a previously populated reserved table can
appear. -/
theorem list_tables_excludes_current_default (db : Database) :
    db.default_table ∉ db.list_tables := by
  intro hmem
  simp only [Database.list_tables, List.mem_filter, bne_iff_ne, ne_eq] at hmem
  exact hmem.2 trivial

/-- Claim C8: after `clear(T)` on an existing non-empty table the two
backends disagree: the volatile backend still lists `T` (now with zero
entries), while the durable backend's `delete_table`-based `clear`
removes `T` from the listing. -/
theorem clear_listing_divergence (m : Memory.Store) (r : Redb.Store) (T : String)
    (_hm : T ∈ m.list_tables) (_hmne : m.len T ≠ 0)
    (_hr : T ∈ r.list_tables) (_hrne : r.len T ≠ 0) (hwf : TablesWF r.tables) :
    (T ∈ (m.clear T).list_tables ∧ (m.clear T).len T = 0) ∧
    T ∉ (r.clear T).list_tables := by
  refine ⟨⟨?_, ?_⟩, ?_⟩
  · simp only [Memory.Store.clear, Memory.Store.table_mut, Memory.Store.list_tables]
    exact mem_map_fst_insertA m.tables T _
  · simp [Memory.Store.clear, Memory.Store.table_mut, Memory.Store.len,
      lookupA_insertA_self]
  · simp only [Redb.Store.clear, Redb.Store.list_tables]
    exact not_mem_map_fst_removeA_of_nodup r.tables T hwf.1

/-- Witness for C8 at a concrete one-entry table present on both
backends. -/
theorem clear_listing_divergence_witness :
    ("t" ∈ ((Memory.Store.mk [("t", [("a", [2, 1])])]).clear "t").list_tables ∧
      ((Memory.Store.mk [("t", [("a", [2, 1])])]).clear "t").len "t" = 0) ∧
    "t" ∉ ((Redb.Store.mk [("t", [("a", [2, 1])])]).clear "t").list_tables :=
  clear_listing_divergence ⟨[("t", [("a", [2, 1])])]⟩ ⟨[("t", [("a", [2, 1])])]⟩ "t"
    (by decide) (by decide) (by decide) (by decide) (by decide)

/-- Claim C9: on both backends, `remove(T, k)` with a non-existent table
`T` creates `T`: afterwards `T` is listed with zero entries.  On the
volatile backend, `clear(T)` on a non-existent `T` likewise creates an
empty listed table. -/
theorem remove_creates_missing_table (s : Store) (m : Memory.Store) (T k : String)
    (hs : T ∉ s.list_tables) (_hm : T ∉ m.list_tables) :
    (T ∈ (s.remove T k).list_tables ∧ (s.remove T k).len T = 0) ∧
    (T ∈ (m.clear T).list_tables ∧ (m.clear T).len T = 0) := by
  refine ⟨?_, ?_, ?_⟩
  · cases s with
    | memory ms =>
        have hnone : lookupA ms.tables T = none := by
          rw [lookupA_eq_none_iff]
          simpa [Store.list_tables, Memory.Store.list_tables] using hs
        constructor
        · simp only [Store.remove, Store.list_tables, Memory.Store.remove,
            Memory.Store.table_mut, Memory.Store.list_tables]
          exact mem_map_fst_insertA ms.tables T _
        · simp [Store.remove, Store.len, Memory.Store.remove, Memory.Store.table_mut,
            Memory.Store.len, lookupA_insertA_self, hnone, removeA]
    | redb rs =>
        have hnone : lookupA rs.tables T = none := by
          rw [lookupA_eq_none_iff]
          simpa [Store.list_tables, Redb.Store.list_tables] using hs
        constructor
        · simp only [Store.remove, Store.list_tables, Redb.Store.remove,
            Redb.Store.list_tables]
          exact mem_map_fst_insertA rs.tables T _
        · simp [Store.remove, Store.len, Redb.Store.remove,
            Redb.Store.len, lookupA_insertA_self, hnone, removeA]
  · simp only [Memory.Store.clear, Memory.Store.table_mut, Memory.Store.list_tables]
    exact mem_map_fst_insertA m.tables T _
  · simp [Memory.Store.clear, Memory.Store.table_mut, Memory.Store.len,
      lookupA_insertA_self]

/-- Witness for C9 at concrete empty stores (no table `"t"` anywhere). -/
theorem remove_creates_missing_table_witness :
    ("t" ∈ ((Store.redb ⟨[]⟩).remove "t" "k").list_tables ∧
      ((Store.redb ⟨[]⟩).remove "t" "k").len "t" = 0) ∧
    ("t" ∈ ((Memory.Store.mk []).clear "t").list_tables ∧
      ((Memory.Store.mk []).clear "t").len "t" = 0) :=
  remove_creates_missing_table (Store.redb ⟨[]⟩) ⟨[]⟩ "t" "k" (by decide) (by decide)

/-- Claim C10: when the bytes stored under `k` in `T` do not decode at
the requested type (i.e. `get` yields a decode error), then for *every*
thunk, `get_or_insert_with(T, k, thunk)` returns that decode error and
leaves the store completely unchanged: the result does not depend on the
thunk (it is never invoked) and no insert overwrites the entry. -/
theorem get_or_insert_with_decode_error_no_write (s : Store) (T k : String) (ty : Ty)
    (e : String) (herr : s.get T k ty = .error e) (f : Unit → Value) :
    (TableMut.mk s T).get_or_insert_with k ty f = (.error e, TableMut.mk s T) := by
  have hget : TableMut.get ⟨s, T⟩ k ty = .error e := herr
  simp [TableMut.get_or_insert_with, hget]

/-- Witness for C10 at a concrete store whose `"k"` bytes do not decode
as an integer, with an arbitrary concrete thunk. -/
theorem get_or_insert_with_decode_error_witness :
    (TableMut.mk (Store.memory ⟨[("t", [("k", [9])])]⟩) "t").get_or_insert_with "k" Ty.tInt
        (fun _ => Value.vInt 0)
      = (.error "decode error: stored bytes do not match the requested type",
          TableMut.mk (Store.memory ⟨[("t", [("k", [9])])]⟩) "t") :=
  get_or_insert_with_decode_error_no_write (Store.memory ⟨[("t", [("k", [9])])]⟩)
    "t" "k" Ty.tInt "decode error: stored bytes do not match the requested type"
    rfl (fun _ => Value.vInt 0)
